import Mathlib

/-!
# Punk Records — shallow embedding of the ingestion + projection core

This file embeds the event-sourced workspace-memory service (event envelope,
event log, memory store, projection engine, promotion evaluator, consumer
loop, context-pack memory ranking) as executable Lean definitions and proves
the specification claims about them.

Modelling conventions:
* UUIDs are represented by `Nat`.
* Timestamps are represented by `Int` seconds (1 hour = 3600, 1 day = 86400).
* `float` confidences are represented by `ℚ` (the constants involved, such as
  0.75, are exactly representable).
* A JSON object value is represented by its canonical JSON serialisation
  (keys sorted, minimal separators), a `String`; canonical serialisation of a
  canonical string is the identity, which the model uses silently.
* Free-form payload dictionaries are represented by the record of the fields
  the programs read, each `Option` (absent = key not present in the dict).
  A payload string that is fed to `UUID(...)` is represented by its parse
  result (`PayloadId.uuid id` if it parses, `PayloadId.badUuid` otherwise),
  and likewise a payload `bucket` string by `PayloadBucket`.
-/

/-- `EventType` enumeration (models/events.py). -/
inductive EventType where
  | proposalCreated
  | decisionRecorded
  | riskDetected
  | findingLogged
  | taskCreated
  | taskUpdated
  | memoryCandidate
  | memoryPromoted
  | memoryRetracted
deriving DecidableEq, Repr

/-- `Severity` enumeration (models/events.py). -/
inductive Severity where
  | low
  | medium
  | high
deriving DecidableEq, Repr

/-- `MemoryBucket` enumeration (models/memory.py). -/
inductive MemoryBucket where
  | global
  | workspace
  | ephemeral
deriving DecidableEq, Repr

/-- `MemoryStatus` enumeration (models/memory.py). -/
inductive MemoryStatus where
  | candidate
  | promoted
  | retracted
deriving DecidableEq, Repr

/-- The parse result of a payload string passed to `UUID(...)`:
`uuid id` if the string parses as a UUID, `badUuid` if `UUID(...)` raises. -/
inductive PayloadId where
  | uuid (id : Nat)
  | badUuid
deriving DecidableEq, Repr

/-- The parse result of a payload `bucket` string passed to `MemoryBucket(...)`:
`ok b` if it is one of the three bucket names, `badBucket` if the constructor
raises `ValueError`. -/
inductive PayloadBucket where
  | ok (b : MemoryBucket)
  | badBucket
deriving DecidableEq, Repr

/-- The fields of the free-form event payload dict that the projection code
reads (`payload.get(...)` in projections/engine.py).  `none` models an absent
key. -/
structure Payload where
  bucket : Option PayloadBucket := none
  key : Option String := none
  value : Option String := none
  ttlHours : Option Int := none
  entryId : Option PayloadId := none
deriving DecidableEq, Repr

/-- The validated event envelope (models/events.py `EventEnvelope`).  Fields of
a constructed envelope already satisfy the pydantic constraints (they are
re-checked by `fromWire` below where deserialisation happens). -/
structure Event where
  event_id : Nat
  schema_version : Nat
  ts : Int
  workspace_id : String
  satellite_id : String
  trace_id : Nat
  type : EventType
  severity : Severity
  confidence : ℚ
  payload : Payload
deriving DecidableEq, Repr

/-- A memory entry / a row of the `memory_entries` table
(models/memory.py `MemoryEntry`; store/memory_store.py). -/
structure MemoryEntry where
  entry_id : Nat
  workspace_id : String
  bucket : MemoryBucket
  key : String
  value : String
  status : MemoryStatus
  confidence : ℚ
  source_event_id : Nat
  promoted_at : Option Int := none
  retracted_at : Option Int := none
  expires_at : Option Int := none
  created_at : Int
  updated_at : Int
deriving DecidableEq, Repr

/-! ## Event store (store/event_store.py)

The `events` table is modelled as the list of rows in insertion order. -/

/-- `EventStore.persist`: insert keyed by `event_id`,
`ON CONFLICT (event_id) DO NOTHING`.  Returns the new table and
`true` iff the row was inserted (`false` = duplicate). -/
def persist (events : List Event) (e : Event) : List Event × Bool :=
  if events.any (fun r => r.event_id == e.event_id) then (events, false)
  else (events ++ [e], true)

/-- Stable insertion of an element into a sorted list (the model's
executable stable sort; `le` is reflexive-total in all uses). -/
def insertLe (le : α → α → Bool) (a : α) : List α → List α
  | [] => [a]
  | b :: bs => if le a b then a :: b :: bs else b :: insertLe le a bs

/-- A stable insertion sort, used to model SQL `ORDER BY` and Python's
stable `sorted` / `list.sort`. -/
def insertionSortBy (le : α → α → Bool) : List α → List α
  | [] => []
  | a :: as => insertLe le a (insertionSortBy le as)

/-- Python `str.strip()` / pydantic `str_strip_whitespace`: drop whitespace
from both ends. -/
def pyStrip (s : String) : String :=
  String.mk (((s.data.dropWhile Char.isWhitespace).reverse.dropWhile
    Char.isWhitespace).reverse)

/-- Comparison used to model `ORDER BY ts ASC` (a stable sort by `ts`;
SQL leaves the order of equal keys unspecified, the model fixes insertion
order). -/
def tsLe (a b : Event) : Bool := a.ts ≤ b.ts

/-- `EventStore.query_events`: filter by workspace, optional type, optional
`ts > after`, optional `ts < before`; `ORDER BY ts ASC LIMIT min(limit,200)
OFFSET offset`. -/
def queryEvents (events : List Event) (workspace_id : String)
    (type : Option EventType) (after : Option Int) (before : Option Int)
    (limit : Nat := 50) (offset : Nat := 0) : List Event :=
  let lim := min limit 200
  let rows := events.filter (fun r =>
    r.workspace_id == workspace_id
    && (match type with | none => true | some t => r.type == t)
    && (match after with | none => true | some a => decide (a < r.ts))
    && (match before with | none => true | some b => decide (r.ts < b)))
  (((insertionSortBy tsLe rows).drop offset).take lim)

/-- `EventStore.get_workspace_events` (no type / ts filters, as called from
replay): all rows of the workspace, `ORDER BY ts ASC`. -/
def getWorkspaceEvents (events : List Event) (workspace_id : String) :
    List Event :=
  insertionSortBy tsLe (events.filter (fun r => r.workspace_id == workspace_id))

/-- `EventStore.count_references`: count rows with the workspace, the trace
and `ts >= since_ts`. -/
def countReferences (events : List Event) (workspace_id : String)
    (trace_id : Nat) (since_ts : Int) : Nat :=
  (events.filter (fun r =>
    r.workspace_id == workspace_id && r.trace_id == trace_id
      && decide (since_ts ≤ r.ts))).length

/-- `EventStore.has_event_type_in_trace`. -/
def hasEventTypeInTrace (events : List Event) (workspace_id : String)
    (trace_id : Nat) (event_type : EventType) : Bool :=
  events.any (fun r =>
    r.workspace_id == workspace_id && r.trace_id == trace_id
      && r.type == event_type)

/-! ## Memory store (store/memory_store.py)

The `memory_entries` table is modelled as the list of rows in insertion
order. -/

/-- `MemoryStore.create_entry`: insert with
`ON CONFLICT (source_event_id) DO NOTHING`.  Returns the new table and
`true` iff inserted. -/
def createEntry (rows : List MemoryEntry) (entry : MemoryEntry) :
    List MemoryEntry × Bool :=
  if rows.any (fun r => r.source_event_id == entry.source_event_id) then
    (rows, false)
  else (rows ++ [entry], true)

/-- `MemoryStore.update_status`: `UPDATE_STATUS_PROMOTED_SQL` sets
`status, promoted_at = updated_at = ts` on the row with the entry id;
any other status uses `UPDATE_STATUS_RETRACTED_SQL`, which sets
`status, retracted_at = updated_at = ts`.  Returns the new table and
`true` iff a row was updated. -/
def updateStatus (rows : List MemoryEntry) (entry_id : Nat)
    (status : MemoryStatus) (ts : Int) : List MemoryEntry × Bool :=
  let rows2 := rows.map (fun r =>
    if r.entry_id == entry_id then
      if status == MemoryStatus.promoted then
        { r with status := status, promoted_at := some ts, updated_at := ts }
      else
        { r with status := status, retracted_at := some ts, updated_at := ts }
    else r)
  (rows2, rows.any (fun r => r.entry_id == entry_id))

/-- `MemoryStore.get_entries`: filter by workspace, status (default
`promoted`), optional bucket; unless `include_expired`, keep only rows with
`expires_at IS NULL OR expires_at > NOW()` (`now` is the wall clock at the
query). -/
def getEntries (rows : List MemoryEntry) (workspace_id : String)
    (bucket : Option MemoryBucket) (status : Option MemoryStatus)
    (include_expired : Bool) (now : Int) : List MemoryEntry :=
  let effectiveStatus := status.getD MemoryStatus.promoted
  rows.filter (fun r =>
    r.workspace_id == workspace_id
    && r.status == effectiveStatus
    && (match bucket with | none => true | some b => r.bucket == b)
    && (include_expired
        || (match r.expires_at with
            | none => true
            | some t => decide (now < t))))

/-- `MemoryStore.delete_workspace_entries`: delete all rows of the workspace,
returning the new table and the deleted count. -/
def deleteWorkspaceEntries (rows : List MemoryEntry)
    (workspace_id : String) : List MemoryEntry × Nat :=
  (rows.filter (fun r => !(r.workspace_id == workspace_id)),
   (rows.filter (fun r => r.workspace_id == workspace_id)).length)

/-! ## Promotion evaluator (projections/rules.py) -/

/-- `CONFIDENCE_THRESHOLD = 0.75`. -/
def CONFIDENCE_THRESHOLD : ℚ := mkRat 3 4

/-- `REFERENCE_WINDOW_DAYS = 7`, in model seconds. -/
def REFERENCE_WINDOW : Int := 7 * 86400

/-- `MIN_REFERENCES = 2`. -/
def MIN_REFERENCES : Nat := 2

/-- `PromotionEvaluator.is_eligible` (projections/rules.py), reading the
event log `events`: status check, then confidence check, then the
reference-count check with `since = created_at - 7 days`, then the
decision-in-trace check. -/
def isEligible (events : List Event) (entry : MemoryEntry)
    (trace_id : Nat) : Bool :=
  if !(entry.status == MemoryStatus.candidate) then false
  else if entry.confidence < CONFIDENCE_THRESHOLD then false
  else
    let since_ts := entry.created_at - REFERENCE_WINDOW
    if MIN_REFERENCES ≤ countReferences events entry.workspace_id trace_id since_ts then
      true
    else
      hasEventTypeInTrace events entry.workspace_id trace_id
        EventType.decisionRecorded

/-! ## Projection engine (projections/engine.py) -/

/-- `DEFAULT_EPHEMERAL_TTL_HOURS = 24`. -/
def DEFAULT_EPHEMERAL_TTL_HOURS : Int := 24

/-- The `MemoryEntry(...)` construction performed by
`ProjectionEngine._handle_candidate`, including the pydantic validation of
models/memory.py: `str_strip_whitespace` strips string fields, `workspace_id`
and `key` must be non-empty after stripping, `confidence` must lie in
`[0, 1]`; an invalid payload bucket string makes `MemoryBucket(...)` raise.
Returns `none` when the construction raises (`ValueError`/`ValidationError`),
otherwise the candidate entry:  `bucket ← payload.bucket ?? "workspace"`,
`key ← payload.key ?? ""`, `value ← payload.value ?? {}` <!-- canonical -->,
`entry_id = source_event_id = event_id`, `created_at = updated_at = ts`, and
for ephemeral buckets `expires_at = ts + hours(payload.ttl_hours ?? 24)`. -/
def mkEntry? (e : Event) : Option MemoryEntry :=
  match e.payload.bucket.getD (PayloadBucket.ok MemoryBucket.workspace) with
  | PayloadBucket.badBucket => none
  | PayloadBucket.ok bucket =>
    let expires_at : Option Int :=
      if bucket == MemoryBucket.ephemeral then
        some (e.ts + 3600 * (e.payload.ttlHours.getD DEFAULT_EPHEMERAL_TTL_HOURS))
      else none
    let key := pyStrip (e.payload.key.getD "")
    let ws := pyStrip e.workspace_id
    if ws == "" then none
    else if key == "" then none
    else if !(decide (0 ≤ e.confidence) && decide (e.confidence ≤ 1)) then none
    else some
      { entry_id := e.event_id
        workspace_id := ws
        bucket := bucket
        key := key
        value := e.payload.value.getD "\x7b\x7d"
        status := MemoryStatus.candidate
        confidence := e.confidence
        source_event_id := e.event_id
        expires_at := expires_at
        created_at := e.ts
        updated_at := e.ts }

/-- `ProjectionEngine._handle_candidate` acting on the memory table.
`Except.error ()` models a raised exception (which in the source happens
inside the `MemoryEntry(...)` construction, before any store write). -/
def handleCandidate (e : Event) (rows : List MemoryEntry) :
    Except Unit (List MemoryEntry) :=
  match mkEntry? e with
  | none => Except.error ()
  | some entry => Except.ok (createEntry rows entry).1

/-- `ProjectionEngine._handle_promoted`: a missing payload `entry_id` is
warn-and-return; a payload `entry_id` that does not parse as a UUID raises;
otherwise `update_status(entry_id, promoted, ts = event.ts)`. -/
def handlePromoted (e : Event) (rows : List MemoryEntry) :
    Except Unit (List MemoryEntry) :=
  match e.payload.entryId with
  | none => Except.ok rows
  | some PayloadId.badUuid => Except.error ()
  | some (PayloadId.uuid id) =>
      Except.ok (updateStatus rows id MemoryStatus.promoted e.ts).1

/-- `ProjectionEngine._handle_retracted`, analogous. -/
def handleRetracted (e : Event) (rows : List MemoryEntry) :
    Except Unit (List MemoryEntry) :=
  match e.payload.entryId with
  | none => Except.ok rows
  | some PayloadId.badUuid => Except.error ()
  | some (PayloadId.uuid id) =>
      Except.ok (updateStatus rows id MemoryStatus.retracted e.ts).1

/-- The dispatch on `event.type` at the top of `ProjectionEngine.process`
(and the one inside `ProjectionEngine.replay`): the three memory-bearing
types go through their handlers, every other type leaves the memory table
unchanged. -/
def processMemoryStep (e : Event) (rows : List MemoryEntry) :
    Except Unit (List MemoryEntry) :=
  match e.type with
  | EventType.memoryCandidate => handleCandidate e rows
  | EventType.memoryPromoted => handlePromoted e rows
  | EventType.memoryRetracted => handleRetracted e rows
  | _ => Except.ok rows

/-- The total memory-table transition of one processed event: on an exception
the table is unchanged (the handlers raise before writing). -/
def applyMemEvent (rows : List MemoryEntry) (e : Event) : List MemoryEntry :=
  match processMemoryStep e rows with
  | Except.ok rows2 => rows2
  | Except.error _ => rows

/-- The whole mutable state of the service: the `events` table, the
`memory_entries` table, the projection cursor, the producer outbox (synthetic
envelopes published to the backbone, in order) and a fresh-UUID counter
modelling `uuid4()`. -/
structure SysState where
  events : List Event
  memory : List MemoryEntry
  cursor : Option (Nat × Int)
  outbox : List Event
  fresh : Nat
deriving DecidableEq, Repr

/-- The initial empty state. -/
def initState : SysState :=
  { events := [], memory := [], cursor := none, outbox := [], fresh := 0 }

/-- The synthetic `memory.promoted` envelope built by
`ProjectionEngine._auto_promote` (§4.7): fresh `event_id` (`uuid4()`,
modelled by the fresh counter), `ts`, `trace_id` and `severity` from the
trigger, workspace and confidence from the entry,
`payload = {entry_id: str(entry.entry_id)}`. -/
def syntheticPromotion (freshId : Nat) (entry : MemoryEntry)
    (trigger : Event) : Event :=
  { event_id := freshId
    schema_version := 1
    ts := trigger.ts
    workspace_id := entry.workspace_id
    satellite_id := "punk-records.projection-engine"
    trace_id := trigger.trace_id
    type := EventType.memoryPromoted
    severity := trigger.severity
    confidence := entry.confidence
    payload := { entryId := some (PayloadId.uuid entry.entry_id) } }

/-- `ProjectionEngine._auto_promote`: with a producer the synthetic envelope
is published through the backbone (appended to the outbox); without one it is
applied directly through `_handle_promoted` (its payload `entry_id` always
parses, so the error branch is unreachable). -/
def autoPromote (producer : Bool) (entry : MemoryEntry) (trigger : Event)
    (s : SysState) : SysState :=
  let synthetic := syntheticPromotion s.fresh entry trigger
  if producer then
    { s with outbox := s.outbox ++ [synthetic], fresh := s.fresh + 1 }
  else
    match handlePromoted synthetic s.memory with
    | Except.ok rows2 => { s with memory := rows2, fresh := s.fresh + 1 }
    | Except.error _ => s

/-- `ProjectionEngine._check_auto_promotion`: list the workspace's candidate
entries (default `include_expired = False`, hence the wall clock `now`), and
for each evaluate eligibility with the trigger's `trace_id`, auto-promoting
the eligible ones.  The candidate list is a snapshot taken before the loop.
(The source reconstructs each row through `MemoryEntry(...)`; rows created by
the handlers always re-validate, so the reconstruction is the identity.) -/
def checkAutoPromotion (producer : Bool) (now : Int) (e : Event)
    (s : SysState) : SysState :=
  let candidates :=
    getEntries s.memory e.workspace_id none (some MemoryStatus.candidate)
      false now
  candidates.foldl
    (fun st row =>
      if isEligible st.events row e.trace_id then autoPromote producer row e st
      else st)
    s

/-- `ProjectionEngine.process`: handler dispatch, then the auto-promotion
sweep, then the cursor update.  A raised handler exception skips the sweep
and the cursor update and leaves `false` in the second component (the
consumer loop then skips the offset commit). -/
def processEvent (producer : Bool) (now : Int) (e : Event) (s : SysState) :
    SysState × Bool :=
  match processMemoryStep e s.memory with
  | Except.error _ => (s, false)
  | Except.ok mem2 =>
    let s2 := checkAutoPromotion producer now e { s with memory := mem2 }
    ({ s2 with cursor := some (e.event_id, e.ts) }, true)

/-- One consumer-loop delivery of a decoded envelope (kafka/consumer.py):
`EventStore.persist`, then `ProjectionEngine.process`.  The second component
of the pair is the wall-clock time at the auto-promotion sweep's
`get_entries` call. -/
def deliver (producer : Bool) (s : SysState) (d : Event × Int) : SysState :=
  let s1 := { s with events := (persist s.events d.1).1 }
  (processEvent producer d.2 d.1 s1).1

/-- A whole delivery sequence processed by the deployed worker (which always
has a producer), starting from the empty state. -/
def runDeliveries (ds : List (Event × Int)) : SysState :=
  ds.foldl (deliver true) initState

/-- The event-application loop of `ProjectionEngine.replay`: apply each
memory-bearing event through the same handlers; a raised handler exception
propagates out of `replay` (the remaining events are not applied).  Returns
the memory table, whether the loop completed, and `entries_created` (which
the source increments for every `memory.candidate` handled, duplicates
included). -/
def replayGo (rows : List MemoryEntry) :
    List Event → List MemoryEntry × Bool × Nat
  | [] => (rows, true, 0)
  | e :: rest =>
    match processMemoryStep e rows with
    | Except.error _ => (rows, false, 0)
    | Except.ok rows2 =>
      let r := replayGo rows2 rest
      (r.1, r.2.1,
        r.2.2 + (if e.type == EventType.memoryCandidate then 1 else 0))

/-- `ProjectionEngine.replay`: delete the workspace's entries, then re-apply
the workspace's logged events in ascending `ts` through the projection
handlers — no auto-promotion sweep, no cursor update.  The summary
`(entries_deleted, events_replayed, entries_created)` is `none` when the
loop raised. -/
def replay (s : SysState) (workspace_id : String) :
    SysState × Option (Nat × Nat × Nat) :=
  let d := deleteWorkspaceEntries s.memory workspace_id
  let evs := getWorkspaceEvents s.events workspace_id
  let r := replayGo d.1 evs
  ({ s with memory := r.1 },
   if r.2.1 then some (d.2, evs.length, r.2.2) else none)

/-! ## Consumer loop (kafka/consumer.py)

One polled message of `EventConsumer._consume_loop`.  Decoding is modelled by
its result; the store and projection calls are modelled by their outcomes
(`Except.error ()` = a raised exception, e.g. a transient store error). -/

/-- The result of `EventEnvelope.from_kafka_value(msg.value)`. -/
inductive DecodedMsg where
  | malformed
  | ok (e : Event)
deriving DecidableEq, Repr

/-- The body of `_consume_loop` for one message: returns whether
`consumer.commit()` was reached and the `observe_consumed_event` result
labels emitted, in order. -/
def consumeStep (msg : DecodedMsg) (persistResult : Except Unit Bool)
    (projectResult : Except Unit Unit) (hasEngine : Bool) :
    Bool × List String :=
  match msg with
  | DecodedMsg.malformed => (true, ["malformed"])
  | DecodedMsg.ok _ =>
    match persistResult with
    | Except.error _ => (false, ["persist_error"])
    | Except.ok inserted =>
      let label := if inserted then "persisted" else "duplicate"
      if hasEngine then
        match projectResult with
        | Except.ok _ => (true, [label, "projected"])
        | Except.error _ => (false, [label, "projection_error"])
      else (true, [label])

/-! ## Wire round-trip (models/events.py)

`to_kafka_value` serialises the envelope to canonical JSON with `ts` in
ISO-8601; `from_kafka_value` re-validates.  A serialised timestamp is
modelled by `WireTs`: `naive t` is an ISO string without UTC offset denoting
wall-clock `t`, `aware t off` one with explicit offset `off` (seconds),
denoting instant `t - off`. -/

inductive WireTs where
  | naive (t : Int)
  | aware (t : Int) (offset : Int)
deriving DecidableEq, Repr

/-- The wire shape of an envelope (the parsed canonical JSON document). -/
structure Wire where
  event_id : Nat
  schema_version : Nat
  ts : WireTs
  workspace_id : String
  satellite_id : String
  trace_id : Nat
  type : EventType
  severity : Severity
  confidence : ℚ
  payload : Payload
deriving DecidableEq, Repr

/-- The `normalize_ts_to_utc` validator: a naive timestamp is interpreted as
UTC, an offset-aware one is converted to UTC. -/
def normalizeTs : WireTs → Int
  | WireTs.naive t => t
  | WireTs.aware t off => t - off

/-- `EventEnvelope.to_kafka_value`: canonical JSON with `ts` serialised in
ISO-8601 with explicit UTC offset (offset `0`). -/
def toKafkaValue (e : Event) : Wire :=
  { event_id := e.event_id
    schema_version := e.schema_version
    ts := WireTs.aware e.ts 0
    workspace_id := e.workspace_id
    satellite_id := e.satellite_id
    trace_id := e.trace_id
    type := e.type
    severity := e.severity
    confidence := e.confidence
    payload := e.payload }

/-- `EventEnvelope.from_kafka_value`: deserialisation re-validates
(`model_validate_json`): `schema_version` in `[1, 1]`, string fields
stripped (`str_strip_whitespace`) and `workspace_id`, `satellite_id`
non-empty, `confidence` in `[0, 1]`, `ts` normalised to UTC.  `none` models a
raised `ValidationError`. -/
def fromKafkaValue (w : Wire) : Option Event :=
  let ws := pyStrip w.workspace_id
  let sat := pyStrip w.satellite_id
  if !(w.schema_version == 1) then none
  else if ws == "" then none
  else if sat == "" then none
  else if !(decide (0 ≤ w.confidence) && decide (w.confidence ≤ 1)) then none
  else some
    { event_id := w.event_id
      schema_version := w.schema_version
      ts := normalizeTs w.ts
      workspace_id := ws
      satellite_id := sat
      trace_id := w.trace_id
      type := w.type
      severity := w.severity
      confidence := w.confidence
      payload := w.payload }

/-- A constructed envelope's pydantic invariants (what `EventEnvelope(...)`
guarantees about any envelope it returns). -/
def ValidEnvelope (e : Event) : Prop :=
  e.schema_version = 1
  ∧ pyStrip e.workspace_id = e.workspace_id ∧ e.workspace_id ≠ ""
  ∧ pyStrip e.satellite_id = e.satellite_id ∧ e.satellite_id ≠ ""
  ∧ 0 ≤ e.confidence ∧ e.confidence ≤ 1

/-! ## POST /events (api/events.py)

The internal-envelope path of `post_event` (a body containing `event_id`),
behind `verify_token` (api/deps.py).  The request body is modelled by its
`EventEnvelope.model_validate` outcome. -/

/-- The parsed request body of `POST /events` with `event_id` present. -/
inductive PostBody where
  | invalidShape
  | envelope (e : Event)
deriving DecidableEq, Repr

/-- The success payload of `post_event` (the claim's fields; the source also
returns `id` and `timestamp` aliases). -/
structure PostResponse where
  status : String
  event_id : Nat
deriving DecidableEq, Repr

/-- `post_event` for an internal envelope: `verify_token` compares the
`Authorization` header against `Bearer <token>` (401 on mismatch), an
invalid body yields 400, and a valid envelope is published and answered with
the route's declared `status_code=201` and `{status: "accepted", ...}`. -/
def postEvent (authorization : Option String) (token : String)
    (body : PostBody) : Nat × Option PostResponse :=
  if !(authorization == some ("Bearer " ++ token)) then (401, none)
  else
    match body with
    | PostBody.invalidShape => (400, none)
    | PostBody.envelope e =>
        (201, some { status := "accepted", event_id := e.event_id })

/-! ## Context-pack memory ranking (api/context_packs.py) -/

/-- `str.lower()` (the model maps `Char.toLower` over the string). -/
def lowerStr (s : String) : String := String.mk (s.data.map Char.toLower)

/-- Whether the first list starts with the second (character lists). -/
def charsStartWith : List Char → List Char → Bool
  | _, [] => true
  | [], _ :: _ => false
  | a :: as, b :: bs => a == b && charsStartWith as bs

/-- Substring occurrence on character lists. -/
def charsContain : List Char → List Char → Bool
  | [], needle => needle.isEmpty
  | h :: t, needle => charsStartWith (h :: t) needle || charsContain t needle

/-- Python's `needle in haystack` substring test. -/
def containsSub (haystack needle : String) : Bool :=
  charsContain haystack.data needle.data

/-- Python `str.split()` on a character list: split on whitespace runs,
dropping empty tokens; `acc` holds the current token reversed. -/
def splitWsAux : List Char → List Char → List String
  | [], acc => if acc.isEmpty then [] else [String.mk acc.reverse]
  | c :: rest, acc =>
    if c.isWhitespace then
      if acc.isEmpty then splitWsAux rest []
      else String.mk acc.reverse :: splitWsAux rest []
    else splitWsAux rest (c :: acc)

/-- `query.lower().split()`: lowercase, split on whitespace, no empty
tokens (Python `str.split()` drops them; the source also filters `if t`). -/
def tokenizeQuery (q : String) : List String :=
  splitWsAux (lowerStr q).data []

/-- Python `sorted(...)` on strings (code-point lexicographic, modelled by
`String` order). -/
def sortedStrings (l : List String) : List String :=
  insertionSortBy (fun a b => decide (a ≤ b)) l

/-- Round-half-even of `q * 10000` (Python's `round(q, 4)` numerator),
computed on the integer `q.num * 10000 / q.den` with floor division and the
half-to-even tie rule. -/
def roundHalfEvenScaled (q : ℚ) : Int :=
  let a := q.num * 10000
  let b := (q.den : Int)
  let f := Int.ediv a b
  let rem := Int.emod a b
  if 2 * rem < b then f
  else if b < 2 * rem then f + 1
  else if Int.emod f 2 == 0 then f else f + 1

/-- `round(score, 4)`. -/
def round4 (q : ℚ) : ℚ := mkRat (roundHalfEvenScaled q) 10000

/-- One element of the context-pack memory section, as built by
`_to_context_memory`: the underlying entry plus
`relevance = {score: round(score, 4), match_terms}`.  (The source flattens
the entry into presentation fields; the model keeps the row itself.) -/
structure RankedMemory where
  entry : MemoryEntry
  score : ℚ
  match_terms : List String
deriving DecidableEq, Repr

/-- `_to_context_memory`. -/
def toContextMemory (entry : MemoryEntry) (score : ℚ)
    (match_terms : List String) : RankedMemory :=
  { entry := entry, score := round4 score, match_terms := match_terms }

/-- The tie-break timestamp `updated_at or created_at or datetime.min`
(`updated_at` is always set in a stored row, so it is the key). -/
def tieTs (e : MemoryEntry) : Int := e.updated_at

/-- Lexicographic `≤` on the Python sort key `(score, tie timestamp)`. -/
def scoreKeyLe (x y : ℚ × Int) : Bool :=
  decide (x.1 < y.1) || (x.1 == y.1 && decide (x.2 ≤ y.2))

/-- The comparison modelling `list.sort(key=..., reverse=True)`: a stable
sort placing larger keys first. -/
def rankDescLe (keyOf : α → ℚ × Int) (a b : α) : Bool :=
  scoreKeyLe (keyOf b) (keyOf a)

/-- The haystack built by `_rank_memory` for one entry:
`" ".join([str(key or "").lower(), normalized_content.lower()])` (the
normalised content of a canonical value string is itself). -/
def rankHaystack (e : MemoryEntry) : String :=
  lowerStr e.key ++ " " ++ lowerStr e.value

/-- `_rank_memory` (api/context_packs.py): empty input gives `[]`; a missing
or blank query gives the newest-first default ordering with score 1.0; else
tokenise the query, drop entries without a matching term, score
`len(set(matched)) / len(set(terms))`, sort stably by `(score, tie ts)`
descending, truncate, and render through `_to_context_memory`. -/
def rankMemory (entries : List MemoryEntry) (query : Option String)
    (limit : Nat) : List RankedMemory :=
  if entries.isEmpty then []
  else if (match query with
           | none => true
           | some q => pyStrip q == "") then
    let sortedEntries :=
      insertionSortBy (rankDescLe (fun e => ((1 : ℚ), tieTs e))) entries
    (sortedEntries.take limit).map (fun e => toContextMemory e 1 [])
  else
    let q := query.getD ""
    let terms := tokenizeQuery q
    if terms.isEmpty then []
    else
      let ranked := entries.filterMap (fun entry =>
        let haystack := rankHaystack entry
        let matched := terms.filter (fun t => containsSub haystack t)
        if matched.isEmpty then none
        else some
          ((mkRat (matched.dedup.length : Int) terms.dedup.length,
            sortedStrings matched.dedup, entry)))
      let sortedRanked :=
        insertionSortBy (rankDescLe (fun r => (r.1, tieTs r.2.2))) ranked
      (sortedRanked.take limit).map
        (fun r => toContextMemory r.2.2 r.1 r.2.1)

/-- The memory-section assembler written from the claim's words,
parameterised by the haystack: term set `T`, inclusion iff some term of `T`
occurs in the haystack, score `|matched ∩ T| / |T|` rounded to 4 decimals,
`match_terms` sorted and unique, stable sort by score with ties broken by
the most recent tie timestamp, truncation to the limit. -/
def rankMemoryClaim (haystackOf : MemoryEntry → String)
    (entries : List MemoryEntry) (q : String) (limit : Nat) :
    List RankedMemory :=
  let T := (tokenizeQuery q).dedup
  if T.isEmpty then []
  else
    let scored := (entries.filter
        (fun e => T.any (fun t => containsSub (haystackOf e) t))).map
      (fun e =>
        let M := T.filter (fun t => containsSub (haystackOf e) t)
        (mkRat (M.length : Int) T.length, sortedStrings M, e))
    let sortedRanked :=
      insertionSortBy (rankDescLe (fun r => (r.1, tieTs r.2.2))) scored
    (sortedRanked.take limit).map (fun r => toContextMemory r.2.2 r.1 r.2.1)

/-- The haystack exactly as the claim states it:
`lower(key) + " " + canonical_json(value)` — the value part not lowercased. -/
def claimHaystack (e : MemoryEntry) : String := lowerStr e.key ++ " " ++ e.value


/-! ## Canonical form of the projected memory state

`applyMemEvent` acts on each row independently of the others (updates match
on `entry_id` only) and creates at most one row per distinct candidate
`event_id` (the `source_event_id` conflict key).  The definitions below give
the resulting closed form, proved equal to the operational fold. -/

/-- The action of one delivered event on one existing row: a
`memory.promoted` / `memory.retracted` envelope whose payload `entry_id`
parses and equals the row's `entry_id` overwrites
`status`, `promoted_at`/`retracted_at` and `updated_at`; every other
delivery leaves the row unchanged. -/
def applyUpd (r : MemoryEntry) (e : Event) : MemoryEntry :=
  match e.type, e.payload.entryId with
  | EventType.memoryPromoted, some (PayloadId.uuid id) =>
    if r.entry_id == id then
      { r with status := MemoryStatus.promoted, promoted_at := some e.ts,
               updated_at := e.ts }
    else r
  | EventType.memoryRetracted, some (PayloadId.uuid id) =>
    if r.entry_id == id then
      { r with status := MemoryStatus.retracted, retracted_at := some e.ts,
               updated_at := e.ts }
    else r
  | _, _ => r

/-- A row after a sequence of deliveries. -/
def rowUpd (r : MemoryEntry) (l : List Event) : MemoryEntry :=
  l.foldl applyUpd r

/-- Membership in a list of ids. -/
def memNat (a : Nat) (seen : List Nat) : Bool := seen.any (fun x => x == a)

/-- The `source_event_id` column of a memory table. -/
def srcIds (rows : List MemoryEntry) : List Nat :=
  rows.map (fun r => r.source_event_id)

/-- The rows created by a delivery sequence, given the source ids already
present: one row per effective `memory.candidate` (valid construction, fresh
`source_event_id`), finished by `rowF` over the deliveries after it. -/
def createdWith (rowF : MemoryEntry → List Event → MemoryEntry) :
    List Event → List Nat → List MemoryEntry
  | [], _ => []
  | e :: rest, seen =>
    if e.type = EventType.memoryCandidate then
      match mkEntry? e with
      | some base =>
        if memNat base.source_event_id seen then createdWith rowF rest seen
        else rowF base rest ::
          createdWith rowF rest (base.source_event_id :: seen)
      | none => createdWith rowF rest seen
    else createdWith rowF rest seen

/-- Whether `e` is a `memory.promoted` envelope whose payload targets the
entry `id`. -/
def isPromoteFor (id : Nat) (e : Event) : Bool :=
  e.type == EventType.memoryPromoted
    && e.payload.entryId == some (PayloadId.uuid id)

/-- Whether `e` is a `memory.retracted` envelope targeting the entry `id`. -/
def isRetractFor (id : Nat) (e : Event) : Bool :=
  e.type == EventType.memoryRetracted
    && e.payload.entryId == some (PayloadId.uuid id)

/-- Whether `e` is a terminal-status envelope targeting the entry `id`. -/
def isTerminalFor (id : Nat) (e : Event) : Bool :=
  isPromoteFor id e || isRetractFor id e

/-- The `ts` of the last-delivered `memory.promoted` targeting `id`. -/
def lastPromoteTs (id : Nat) (l : List Event) : Option Int :=
  ((l.filter (isPromoteFor id)).getLast?).map Event.ts

/-- The `ts` of the last-delivered `memory.retracted` targeting `id`. -/
def lastRetractTs (id : Nat) (l : List Event) : Option Int :=
  ((l.filter (isRetractFor id)).getLast?).map Event.ts

/-- The last-delivered terminal-status envelope targeting `id`. -/
def lastTerminal (id : Nat) (l : List Event) : Option Event :=
  (l.filter (isTerminalFor id)).getLast?

/-- The closed form of a row after a delivery sequence: `promoted_at` comes
from the last-delivered promotion, `retracted_at` from the last-delivered
retraction, and `status` / `updated_at` from the later of the two (the
last-applied terminal event wins; the event timestamps play no ordering
role). -/
def rowFinal (r : MemoryEntry) (l : List Event) : MemoryEntry :=
  { r with
    status :=
      match lastTerminal r.entry_id l with
      | some e =>
        if e.type == EventType.memoryPromoted then MemoryStatus.promoted
        else MemoryStatus.retracted
      | none => r.status
    promoted_at :=
      match lastPromoteTs r.entry_id l with
      | some t => some t
      | none => r.promoted_at
    retracted_at :=
      match lastRetractTs r.entry_id l with
      | some t => some t
      | none => r.retracted_at
    updated_at :=
      match lastTerminal r.entry_id l with
      | some e => e.ts
      | none => r.updated_at }

/-- The canonical memory state determined by a delivery sequence: one row per
first-delivered distinct effective `memory.candidate`, each finished by the
closed form over the deliveries after its creation. -/
def canonMemory (l : List Event) : List MemoryEntry :=
  createdWith rowFinal l []

/-- Whether processing the event through the projection handlers completes
without raising: a `memory.candidate` must construct a valid entry, a
`memory.promoted` / `memory.retracted` payload `entry_id`, when present,
must parse as a UUID; every other event type is untouched. -/
def goodEvt (e : Event) : Bool :=
  if e.type = EventType.memoryCandidate then (mkEntry? e).isSome
  else if e.type = EventType.memoryPromoted
      ∨ e.type = EventType.memoryRetracted then
    !(e.payload.entryId == some PayloadId.badUuid)
  else true

/-- Validated envelopes carry stripped `workspace_id`s (pydantic
`str_strip_whitespace`); a log populated through `persist` of decoded
envelopes satisfies this. -/
def TrimmedLog (s : SysState) : Prop :=
  ∀ e ∈ s.events, pyStrip e.workspace_id = e.workspace_id

/-- Decidable equality for `Except` results (used to state handler
outcomes). -/
instance [DecidableEq ε] [DecidableEq α] : DecidableEq (Except ε α) := fun a b =>
  match a, b with
  | Except.error x, Except.error y =>
    if h : x = y then isTrue (by rw [h]) else isFalse (by simp [h])
  | Except.error _, Except.ok _ => isFalse (by simp)
  | Except.ok _, Except.error _ => isFalse (by simp)
  | Except.ok x, Except.ok y =>
    if h : x = y then isTrue (by rw [h]) else isFalse (by simp [h])

/-! ## Concrete inputs used by counterexamples and witnesses -/

/-- A neutral validated envelope; concrete inputs below override fields. -/
def baseEvent : Event :=
  { event_id := 0
    schema_version := 1
    ts := 0
    workspace_id := "w"
    satellite_id := "s"
    trace_id := 0
    type := EventType.taskCreated
    severity := Severity.low
    confidence := mkRat 1 2
    payload := {} }

/-- C1: a `memory.candidate` for entry 1 (confidence 1/2 keeps the
auto-promotion sweep quiet). -/
def c1Candidate : Event :=
  { baseEvent with
    event_id := 1
    ts := 0
    type := EventType.memoryCandidate
    payload := { key := some "k" } }

/-- C1: a `memory.promoted` for entry 1 with the later timestamp. -/
def c1Promote : Event :=
  { baseEvent with
    event_id := 2
    ts := 20
    type := EventType.memoryPromoted
    payload := { entryId := some (PayloadId.uuid 1) } }

/-- C1: a `memory.retracted` for entry 1 with the earlier timestamp. -/
def c1Retract : Event :=
  { baseEvent with
    event_id := 3
    ts := 10
    type := EventType.memoryRetracted
    payload := { entryId := some (PayloadId.uuid 1) } }

/-- C1: deliver the retraction before the promotion. -/
def c1DeliveriesA : List (Event × Int) :=
  [(c1Candidate, 0), (c1Retract, 0), (c1Promote, 0)]

/-- C1: the same three envelopes, with the two terminal events swapped. -/
def c1DeliveriesB : List (Event × Int) :=
  [(c1Candidate, 0), (c1Promote, 0), (c1Retract, 0)]

/-- C5: a low-severity and a high-severity `risk.detected` event. -/
def c5RiskLow : Event :=
  { baseEvent with
    event_id := 41
    ts := 1
    type := EventType.riskDetected
    severity := Severity.low }

/-- C5: the high-severity companion event. -/
def c5RiskHigh : Event :=
  { baseEvent with
    event_id := 42
    ts := 2
    type := EventType.riskDetected
    severity := Severity.high }

/-- C6: a `memory.candidate` envelope whose payload has no `key` field. -/
def c6NoKeyCandidate : Event :=
  { baseEvent with
    event_id := 61
    type := EventType.memoryCandidate
    payload := { value := some "\x7b\"fact\":1\x7d" } }

/-- C9: a valid internal envelope, as posted by the repository's own API
test. -/
def c9Envelope : Event :=
  { baseEvent with
    event_id := 91
    type := EventType.taskCreated
    confidence := mkRat 9 10 }

/-- C10: a concrete stored row (entry 7). -/
def c10Row : MemoryEntry :=
  { entry_id := 7
    workspace_id := "w"
    bucket := MemoryBucket.workspace
    key := "k"
    value := "\x7b\x7d"
    status := MemoryStatus.candidate
    confidence := mkRat 4 5
    source_event_id := 7
    created_at := 0
    updated_at := 0 }

/-- C3: a `memory.candidate` in workspace `w`. -/
def c3Candidate : Event :=
  { baseEvent with
    event_id := 31
    ts := 0
    type := EventType.memoryCandidate
    payload := { key := some "k" } }

/-- C3: a logged `memory.promoted` for that candidate. -/
def c3Promote : Event :=
  { baseEvent with
    event_id := 32
    ts := 5
    type := EventType.memoryPromoted
    payload := { entryId := some (PayloadId.uuid 31) } }

/-- C3: a foreign-workspace memory row that replay of `w` must not delete. -/
def c3ForeignRow : MemoryEntry :=
  { entry_id := 99
    workspace_id := "v"
    bucket := MemoryBucket.workspace
    key := "other"
    value := "\x7b\x7d"
    status := MemoryStatus.candidate
    confidence := mkRat 1 2
    source_event_id := 99
    created_at := 0
    updated_at := 0 }

/-- C3: a system state with a two-event log for `w` and one foreign row. -/
def c3State : SysState :=
  { events := [c3Candidate, c3Promote]
    memory := [c3ForeignRow]
    cursor := some (32, 5)
    outbox := []
    fresh := 0 }

/-- C8: a concrete valid envelope. -/
def c8Envelope : Event :=
  { baseEvent with
    event_id := 81
    ts := 42
    trace_id := 4
    type := EventType.findingLogged
    severity := Severity.medium }

/-- C7: a promoted entry whose canonical value contains an upper-case word.
The value string is the canonical JSON of `{"note": "Hello"}`. -/
def c7Entry : MemoryEntry :=
  { entry_id := 71
    workspace_id := "w"
    bucket := MemoryBucket.workspace
    key := "k"
    value := "\x7b\"note\":\"Hello\"\x7d"
    status := MemoryStatus.promoted
    confidence := mkRat 9 10
    source_event_id := 71
    promoted_at := some 1
    created_at := 0
    updated_at := 1 }

/-! ## Theorems -/

theorem applyUpd_entry_id (r : MemoryEntry) (e : Event) :
    (applyUpd r e).entry_id = r.entry_id := by
  unfold applyUpd
  split <;> first | rfl | (split <;> rfl)

theorem applyUpd_workspace_id (r : MemoryEntry) (e : Event) :
    (applyUpd r e).workspace_id = r.workspace_id := by
  unfold applyUpd
  split <;> first | rfl | (split <;> rfl)

theorem applyUpd_source_event_id (r : MemoryEntry) (e : Event) :
    (applyUpd r e).source_event_id = r.source_event_id := by
  unfold applyUpd
  split <;> first | rfl | (split <;> rfl)

theorem rowUpd_entry_id (l : List Event) : ∀ r : MemoryEntry,
    (rowUpd r l).entry_id = r.entry_id := by
  induction l with
  | nil => intro r; rfl
  | cons e rest ih =>
    intro r
    show (rowUpd (applyUpd r e) rest).entry_id = r.entry_id
    rw [ih, applyUpd_entry_id]

theorem rowUpd_workspace_id (l : List Event) : ∀ r : MemoryEntry,
    (rowUpd r l).workspace_id = r.workspace_id := by
  induction l with
  | nil => intro r; rfl
  | cons e rest ih =>
    intro r
    show (rowUpd (applyUpd r e) rest).workspace_id = r.workspace_id
    rw [ih, applyUpd_workspace_id]

theorem rowUpd_source_event_id (l : List Event) : ∀ r : MemoryEntry,
    (rowUpd r l).source_event_id = r.source_event_id := by
  induction l with
  | nil => intro r; rfl
  | cons e rest ih =>
    intro r
    show (rowUpd (applyUpd r e) rest).source_event_id = r.source_event_id
    rw [ih, applyUpd_source_event_id]

/-- C2: `PromotionEvaluator.is_eligible` returns `true` exactly when the
entry is a candidate with confidence at least 0.75 and either at least two
reference events in the trace since `created_at − 7 days` or a
`decision.recorded` event in the trace exist; in particular it never returns
`true` below the confidence threshold.  (The model is a pure function of the
event log — the evaluator performs no writes.) -/
theorem c2_promotion_eligibility_iff (events : List Event)
    (entry : MemoryEntry) (trace_id : Nat) :
    (isEligible events entry trace_id = true ↔
      (entry.status = MemoryStatus.candidate
        ∧ CONFIDENCE_THRESHOLD ≤ entry.confidence
        ∧ (MIN_REFERENCES ≤ countReferences events entry.workspace_id
              trace_id (entry.created_at - REFERENCE_WINDOW)
            ∨ hasEventTypeInTrace events entry.workspace_id trace_id
                EventType.decisionRecorded = true)))
    ∧ (entry.confidence < CONFIDENCE_THRESHOLD →
        isEligible events entry trace_id = false) := by
  by_cases h1 : entry.status = MemoryStatus.candidate
  · by_cases h2 : entry.confidence < CONFIDENCE_THRESHOLD
    · constructor
      · simp [isEligible, h1, h2, not_le.mpr h2]
      · intro _
        simp [isEligible, h1, h2]
    · by_cases h3 : MIN_REFERENCES ≤ countReferences events
          entry.workspace_id trace_id (entry.created_at - REFERENCE_WINDOW)
      · constructor
        · simp [isEligible, h1, h2, h3, not_lt.mp h2]
        · intro hc
          exact absurd hc h2
      · constructor
        · simp [isEligible, h1, h2, h3, not_lt.mp h2]
        · intro hc
          exact absurd hc h2
  · constructor
    · simp [isEligible, h1]
    · intro _
      simp [isEligible, h1]

/-- C4: the consumer loop commits the offset for a message exactly when the
bytes failed envelope decoding (malformed messages are counted and skipped)
or `persist` returned without raising (inserted or duplicate) and the
projection step returned without raising; a raised persist or projection
error leaves the offset uncommitted. -/
theorem c4_commit_iff_pipeline_ok (msg : DecodedMsg)
    (persistResult : Except Unit Bool) (projectResult : Except Unit Unit) :
    ((consumeStep msg persistResult projectResult true).1 = true ↔
      (msg = DecodedMsg.malformed
        ∨ (persistResult.isOk = true ∧ projectResult = Except.ok ())))
    ∧ (msg = DecodedMsg.malformed →
        (consumeStep msg persistResult projectResult true).2 =
          ["malformed"]) := by
  constructor
  · cases msg with
    | malformed => simp [consumeStep]
    | ok e =>
      cases persistResult with
      | error u => cases u; simp [consumeStep, Except.isOk, Except.toBool]
      | ok inserted =>
        cases projectResult with
        | error u =>
          cases u; simp [consumeStep, Except.isOk, Except.toBool]
        | ok u => cases u; simp [consumeStep, Except.isOk, Except.toBool]
  · intro h; subst h; rfl

/-- C5: `EventStore.query_events` — the only event query the context
endpoints can reach — has no severity filter: with the `risk.detected` type
filter it returns low-severity risk events alongside high-severity ones
(here both stored rows).  The call sites in api/context.py and
api/context_packs.py pass `severity="high"`, a keyword argument
`query_events` does not accept, so the risks section of the claim cannot be
produced. -/
theorem c5_risks_query_cannot_filter_severity :
    queryEvents [c5RiskLow, c5RiskHigh] "w" (some EventType.riskDetected)
        none none 8 0 = [c5RiskLow, c5RiskHigh]
    ∧ c5RiskLow.severity = Severity.low := by
  refine ⟨by decide, by decide⟩

/-- C6: a `memory.candidate` whose payload has no `key` field makes the
projection handler raise — `payload.get("key", "")` defaults to the empty
string, which the `MemoryEntry` model rejects (`key` has `min_length=1`) —
and no memory entry is stored. -/
theorem c6_empty_key_candidate_rejected :
    mkEntry? c6NoKeyCandidate = none
    ∧ handleCandidate c6NoKeyCandidate [] = Except.error ()
    ∧ (runDeliveries [(c6NoKeyCandidate, 0)]).memory = [] := by
  refine ⟨by decide, by decide, by decide⟩

/-- C9: `post_event` answers a valid internal envelope, with a valid bearer
token, with HTTP status 201 (the route declares `status_code=201`) and body
`{status: "accepted", event_id}`; an invalid shape yields 400 and a bad
token 401.  The success status is 201, not the 202 the claim states. -/
theorem c9_post_events_returns_201 :
    postEvent (some "Bearer test-token-123") "test-token-123"
        (PostBody.envelope c9Envelope) =
      (201, some { status := "accepted", event_id := 91 })
    ∧ postEvent (some "Bearer test-token-123") "test-token-123"
        PostBody.invalidShape = (400, none)
    ∧ postEvent (some "Bearer wrong") "test-token-123"
        (PostBody.envelope c9Envelope) = (401, none)
    ∧ (postEvent (some "Bearer test-token-123") "test-token-123"
        (PostBody.envelope c9Envelope)).1 ≠ 202 := by
  refine ⟨by decide, by decide, by decide, by decide⟩

/-- C10: `update_status(entry_id, promoted, ts)` rewrites only `status`,
`promoted_at` and `updated_at` (both set to `ts`) on the matching row, and
`update_status(entry_id, retracted, ts)` only `status`, `retracted_at` and
`updated_at`; every other column — including the other terminal timestamp —
and every non-matching row are left unchanged. -/
theorem c10_update_status_frame (rows : List MemoryEntry) (entry_id : Nat)
    (ts : Int) (r : MemoryEntry) (hmem : r ∈ rows) :
    (r.entry_id = entry_id →
      ({ r with
          status := MemoryStatus.promoted
          promoted_at := some ts
          updated_at := ts } ∈
            (updateStatus rows entry_id MemoryStatus.promoted ts).1
        ∧ { r with
            status := MemoryStatus.retracted
            retracted_at := some ts
            updated_at := ts } ∈
              (updateStatus rows entry_id MemoryStatus.retracted ts).1))
    ∧ (r.entry_id ≠ entry_id →
        (r ∈ (updateStatus rows entry_id MemoryStatus.promoted ts).1
          ∧ r ∈ (updateStatus rows entry_id MemoryStatus.retracted ts).1)) := by
  constructor
  · intro h
    constructor
    · exact List.mem_map.mpr ⟨r, hmem, by simp [h]⟩
    · exact List.mem_map.mpr ⟨r, hmem, by simp [h]⟩
  · intro h
    constructor
    · exact List.mem_map.mpr ⟨r, hmem, by simp [h]⟩
    · exact List.mem_map.mpr ⟨r, hmem, by simp [h]⟩

/-- C10 witness: the frame property evaluated on a one-row table. -/
theorem c10_update_status_frame_witness :
    c10Row ∈ [c10Row]
    ∧ ({ c10Row with
          status := MemoryStatus.promoted
          promoted_at := some 5
          updated_at := 5 } ∈
            (updateStatus [c10Row] 7 MemoryStatus.promoted 5).1
        ∧ { c10Row with
            status := MemoryStatus.retracted
            retracted_at := some 5
            updated_at := 5 } ∈
              (updateStatus [c10Row] 7 MemoryStatus.retracted 5).1) :=
  ⟨by simp,
   (c10_update_status_frame [c10Row] 7 5 c10Row (by simp)).1 (by decide)⟩

theorem memNat_srcIds (a : Nat) :
    ∀ rows : List MemoryEntry,
      memNat a (srcIds rows) = rows.any (fun r => r.source_event_id == a)
  | [] => rfl
  | r :: rest => by
    show (r.source_event_id == a || memNat a (srcIds rest))
      = (r.source_event_id == a
          || rest.any (fun r => r.source_event_id == a))
    rw [memNat_srcIds a rest]

theorem srcIds_append_single (rows : List MemoryEntry) (b : MemoryEntry) :
    srcIds (rows ++ [b]) = srcIds rows ++ [b.source_event_id] := by
  simp [srcIds]

theorem srcIds_map_applyUpd (rows : List MemoryEntry) (e : Event) :
    srcIds (rows.map (fun r => applyUpd r e)) = srcIds rows := by
  simp only [srcIds, List.map_map]
  exact List.map_congr_left (fun r _ => applyUpd_source_event_id r e)

theorem applyUpd_noop_candidate {e : Event}
    (ht : e.type = EventType.memoryCandidate) (r : MemoryEntry) :
    applyUpd r e = r := by
  unfold applyUpd
  rw [ht]

theorem applyUpd_noop_entryId {e : Event}
    (h : e.payload.entryId = none ∨ e.payload.entryId = some PayloadId.badUuid)
    (r : MemoryEntry) : applyUpd r e = r := by
  unfold applyUpd
  rcases h with h | h <;> rw [h] <;> cases e.type <;> rfl

theorem applyUpd_noop_other {e : Event}
    (hp : e.type ≠ EventType.memoryPromoted)
    (hr : e.type ≠ EventType.memoryRetracted) (r : MemoryEntry) :
    applyUpd r e = r := by
  unfold applyUpd
  cases ht : e.type <;>
    first
      | rfl
      | exact absurd ht hp
      | exact absurd ht hr

theorem applyMemEvent_candidate_some {e : Event}
    (ht : e.type = EventType.memoryCandidate) {base : MemoryEntry}
    (hm : mkEntry? e = some base) (rows : List MemoryEntry) :
    applyMemEvent rows e =
      if memNat base.source_event_id (srcIds rows) then rows
      else rows ++ [base] := by
  unfold applyMemEvent processMemoryStep
  rw [ht]
  simp only [handleCandidate, hm, createEntry, memNat_srcIds]
  cases hcnd : rows.any (fun r => r.source_event_id == base.source_event_id) <;>
    simp [hcnd]

theorem applyMemEvent_candidate_none {e : Event}
    (ht : e.type = EventType.memoryCandidate) (hm : mkEntry? e = none)
    (rows : List MemoryEntry) : applyMemEvent rows e = rows := by
  unfold applyMemEvent processMemoryStep
  rw [ht]
  simp [handleCandidate, hm]

theorem applyMemEvent_promoted {e : Event}
    (ht : e.type = EventType.memoryPromoted) {id : Nat}
    (hp : e.payload.entryId = some (PayloadId.uuid id))
    (rows : List MemoryEntry) :
    applyMemEvent rows e = rows.map (fun r => applyUpd r e) := by
  unfold applyMemEvent processMemoryStep
  rw [ht]
  simp only [handlePromoted, hp, updateStatus]
  apply List.map_congr_left
  intro r _
  unfold applyUpd
  rw [ht, hp]
  simp

theorem applyMemEvent_retracted {e : Event}
    (ht : e.type = EventType.memoryRetracted) {id : Nat}
    (hp : e.payload.entryId = some (PayloadId.uuid id))
    (rows : List MemoryEntry) :
    applyMemEvent rows e = rows.map (fun r => applyUpd r e) := by
  unfold applyMemEvent processMemoryStep
  rw [ht]
  simp only [handleRetracted, hp, updateStatus]
  apply List.map_congr_left
  intro r _
  unfold applyUpd
  rw [ht, hp]
  simp

theorem applyMemEvent_update_noop {e : Event}
    (ht : e.type = EventType.memoryPromoted
      ∨ e.type = EventType.memoryRetracted)
    (h : e.payload.entryId = none ∨ e.payload.entryId = some PayloadId.badUuid)
    (rows : List MemoryEntry) : applyMemEvent rows e = rows := by
  unfold applyMemEvent processMemoryStep
  rcases ht with ht | ht <;> rw [ht] <;> rcases h with h | h <;>
    simp [handlePromoted, handleRetracted, h]

theorem applyMemEvent_other {e : Event}
    (hc : e.type ≠ EventType.memoryCandidate)
    (hp : e.type ≠ EventType.memoryPromoted)
    (hr : e.type ≠ EventType.memoryRetracted) (rows : List MemoryEntry) :
    applyMemEvent rows e = rows := by
  unfold applyMemEvent processMemoryStep
  cases ht : e.type <;>
    first
      | rfl
      | exact absurd ht hc
      | exact absurd ht hp
      | exact absurd ht hr

theorem createdWith_congr (f : MemoryEntry → List Event → MemoryEntry) :
    ∀ (l : List Event) (s1 s2 : List Nat),
      (∀ a, memNat a s1 = memNat a s2) →
      createdWith f l s1 = createdWith f l s2 := by
  intro l
  induction l with
  | nil => intro s1 s2 _; rfl
  | cons e rest ih =>
    intro s1 s2 h
    by_cases hc : e.type = EventType.memoryCandidate
    · cases hm : mkEntry? e with
      | none => simp [createdWith, hc, hm, ih s1 s2 h]
      | some base =>
        by_cases hyes : memNat base.source_event_id s2 = true
        · simp [createdWith, hc, hm, h base.source_event_id, hyes,
            ih s1 s2 h]
        · simp only [createdWith, hc, hm, h base.source_event_id, hyes,
            if_true, if_false, Bool.false_eq_true, ite_false, ite_true]
          rw [ih (base.source_event_id :: s1) (base.source_event_id :: s2)
            (fun a => by
              have ha := h a
              unfold memNat at ha ⊢
              simp only [List.any_cons]
              rw [ha])]
    · simp [createdWith, hc, ih s1 s2 h]

theorem foldMem_eq : ∀ (l : List Event) (rows : List MemoryEntry),
    l.foldl applyMemEvent rows
      = rows.map (fun r => rowUpd r l) ++ createdWith rowUpd l (srcIds rows) := by
  intro l
  induction l with
  | nil =>
    intro rows
    simp [rowUpd, createdWith]
  | cons e rest ih =>
    intro rows
    rw [List.foldl_cons]
    have hstep : ∀ r : MemoryEntry,
        rowUpd r (e :: rest) = rowUpd (applyUpd r e) rest := fun _ => rfl
    by_cases hc : e.type = EventType.memoryCandidate
    · cases hm : mkEntry? e with
      | some base =>
        by_cases hseen : memNat base.source_event_id (srcIds rows) = true
        · rw [applyMemEvent_candidate_some hc hm rows, if_pos hseen, ih rows]
          congr 1
          · exact List.map_congr_left (fun r _ => by
              rw [hstep r, applyUpd_noop_candidate hc r])
          · simp [createdWith, hc, hm, hseen]
        · rw [applyMemEvent_candidate_some hc hm rows, if_neg hseen,
            ih (rows ++ [base]), List.map_append, srcIds_append_single,
            createdWith_congr rowUpd rest
              (srcIds rows ++ [base.source_event_id])
              (base.source_event_id :: srcIds rows)
              (fun a => by
                unfold memNat
                simp [List.any_append, List.any_cons, Bool.or_comm])]
          have hrhs : createdWith rowUpd (e :: rest) (srcIds rows)
              = rowUpd base rest ::
                  createdWith rowUpd rest
                    (base.source_event_id :: srcIds rows) := by
            simp [createdWith, hc, hm, hseen]
          rw [hrhs, List.append_assoc]
          simp only [List.map_cons, List.map_nil, List.singleton_append]
          congr 1
          exact List.map_congr_left (fun r _ => by
            rw [hstep r, applyUpd_noop_candidate hc r])
      | none =>
        rw [applyMemEvent_candidate_none hc hm rows, ih rows]
        congr 1
        · exact List.map_congr_left (fun r _ => by
            rw [hstep r, applyUpd_noop_candidate hc r])
        · simp [createdWith, hc, hm]
    · by_cases hp : e.type = EventType.memoryPromoted
      · cases hpe : e.payload.entryId with
        | none =>
          rw [applyMemEvent_update_noop (Or.inl hp) (Or.inl hpe) rows, ih rows]
          congr 1
          · exact List.map_congr_left (fun r _ => by
              rw [hstep r, applyUpd_noop_entryId (Or.inl hpe) r])
          · simp [createdWith, hc]
        | some pid =>
          cases pid with
          | badUuid =>
            rw [applyMemEvent_update_noop (Or.inl hp) (Or.inr hpe) rows,
              ih rows]
            congr 1
            · exact List.map_congr_left (fun r _ => by
                rw [hstep r, applyUpd_noop_entryId (Or.inr hpe) r])
            · simp [createdWith, hc]
          | uuid id =>
            rw [applyMemEvent_promoted hp hpe rows,
              ih (rows.map (fun r => applyUpd r e)), srcIds_map_applyUpd,
              List.map_map]
            congr 1
            simp [createdWith, hc]
      · by_cases hr : e.type = EventType.memoryRetracted
        · cases hpe : e.payload.entryId with
          | none =>
            rw [applyMemEvent_update_noop (Or.inr hr) (Or.inl hpe) rows,
              ih rows]
            congr 1
            · exact List.map_congr_left (fun r _ => by
                rw [hstep r, applyUpd_noop_entryId (Or.inl hpe) r])
            · simp [createdWith, hc]
          | some pid =>
            cases pid with
            | badUuid =>
              rw [applyMemEvent_update_noop (Or.inr hr) (Or.inr hpe) rows,
                ih rows]
              congr 1
              · exact List.map_congr_left (fun r _ => by
                  rw [hstep r, applyUpd_noop_entryId (Or.inr hpe) r])
              · simp [createdWith, hc]
            | uuid id =>
              rw [applyMemEvent_retracted hr hpe rows,
                ih (rows.map (fun r => applyUpd r e)), srcIds_map_applyUpd,
                List.map_map]
              congr 1
              simp [createdWith, hc]
        · rw [applyMemEvent_other hc hp hr rows, ih rows]
          congr 1
          · exact List.map_congr_left (fun r _ => by
              rw [hstep r, applyUpd_noop_other hp hr r])
          · simp [createdWith, hc]

theorem checkAutoPromotion_memory (now : Int) (e : Event) (s : SysState) :
    (checkAutoPromotion true now e s).memory = s.memory := by
  unfold checkAutoPromotion
  generalize getEntries s.memory e.workspace_id none
    (some MemoryStatus.candidate) false now = cands
  induction cands generalizing s with
  | nil => rfl
  | cons c cs ih =>
    rw [List.foldl_cons]
    rw [ih]
    by_cases he : isEligible s.events c e.trace_id = true
    · simp [he, autoPromote]
    · simp [he]

theorem deliver_memory (s : SysState) (d : Event × Int) :
    (deliver true s d).memory = applyMemEvent s.memory d.1 := by
  unfold deliver processEvent applyMemEvent
  cases hres : processMemoryStep d.1 s.memory with
  | error u => simp [hres]
  | ok mem2 =>
    simp only [hres]
    exact checkAutoPromotion_memory d.2 d.1 _

theorem isPromoteFor_spec {id : Nat} {e : Event}
    (h : isPromoteFor id e = true) :
    e.type = EventType.memoryPromoted
      ∧ e.payload.entryId = some (PayloadId.uuid id) := by
  unfold isPromoteFor at h
  simpa [Bool.and_eq_true, beq_iff_eq] using h

theorem isRetractFor_spec {id : Nat} {e : Event}
    (h : isRetractFor id e = true) :
    e.type = EventType.memoryRetracted
      ∧ e.payload.entryId = some (PayloadId.uuid id) := by
  unfold isRetractFor at h
  simpa [Bool.and_eq_true, beq_iff_eq] using h

theorem isPromoteFor_not_retract {id : Nat} {e : Event}
    (h : isPromoteFor id e = true) : isRetractFor id e = false := by
  obtain ⟨ht, _⟩ := isPromoteFor_spec h
  unfold isRetractFor
  simp [ht]

theorem isRetractFor_not_promote {id : Nat} {e : Event}
    (h : isRetractFor id e = true) : isPromoteFor id e = false := by
  obtain ⟨ht, _⟩ := isRetractFor_spec h
  unfold isPromoteFor
  simp [ht]

theorem lastPromoteTs_append (id : Nat) (l : List Event) (e : Event) :
    lastPromoteTs id (l ++ [e])
      = if isPromoteFor id e = true then some e.ts
        else lastPromoteTs id l := by
  unfold lastPromoteTs
  rw [List.filter_append]
  by_cases h : isPromoteFor id e = true
  · simp [h, List.getLast?_concat]
  · simp [h]

theorem lastRetractTs_append (id : Nat) (l : List Event) (e : Event) :
    lastRetractTs id (l ++ [e])
      = if isRetractFor id e = true then some e.ts
        else lastRetractTs id l := by
  unfold lastRetractTs
  rw [List.filter_append]
  by_cases h : isRetractFor id e = true
  · simp [h, List.getLast?_concat]
  · simp [h]

theorem lastTerminal_append (id : Nat) (l : List Event) (e : Event) :
    lastTerminal id (l ++ [e])
      = if isTerminalFor id e = true then some e
        else lastTerminal id l := by
  unfold lastTerminal
  rw [List.filter_append]
  by_cases h : isTerminalFor id e = true
  · simp [h, List.getLast?_concat]
  · simp [h]

theorem applyUpd_promoteFor {e : Event} {r : MemoryEntry}
    (h : isPromoteFor r.entry_id e = true) :
    applyUpd r e =
      { r with status := MemoryStatus.promoted, promoted_at := some e.ts,
               updated_at := e.ts } := by
  obtain ⟨ht, hp⟩ := isPromoteFor_spec h
  unfold applyUpd
  rw [ht, hp]
  simp

theorem applyUpd_retractFor {e : Event} {r : MemoryEntry}
    (h : isRetractFor r.entry_id e = true) :
    applyUpd r e =
      { r with status := MemoryStatus.retracted, retracted_at := some e.ts,
               updated_at := e.ts } := by
  obtain ⟨ht, hp⟩ := isRetractFor_spec h
  unfold applyUpd
  rw [ht, hp]
  simp

theorem applyUpd_noop_notFor {e : Event} {r : MemoryEntry}
    (h : isTerminalFor r.entry_id e = false) : applyUpd r e = r := by
  unfold isTerminalFor isPromoteFor isRetractFor at h
  unfold applyUpd
  cases ht : e.type <;>
    first
      | rfl
      | (cases hpe : e.payload.entryId with
          | none => rfl
          | some pid =>
            cases pid with
            | badUuid => rfl
            | uuid id =>
              rw [ht, hpe] at h
              simp only [Bool.or_eq_false_iff, Bool.and_eq_false_iff] at h
              have hne : ¬ (id = r.entry_id) := by
                rcases h with ⟨h1, h2⟩
                rcases h1 with h1 | h1 <;> rcases h2 with h2 | h2 <;>
                  simp_all [beq_iff_eq]
              have hcond : (r.entry_id == id) = false :=
                beq_eq_false_iff_ne.mpr (fun hh => hne hh.symm)
              simp [hcond])

theorem rowFinal_nil (r : MemoryEntry) : rowFinal r [] = r := rfl

theorem rowUpd_eq_rowFinal : ∀ (l : List Event) (r : MemoryEntry),
    rowUpd r l = rowFinal r l := by
  intro l
  induction l using List.reverseRecOn with
  | nil =>
    intro r
    rw [rowFinal_nil]
    rfl
  | append_singleton l e ih =>
    intro r
    have hfold : rowUpd r (l ++ [e]) = applyUpd (rowUpd r l) e := by
      unfold rowUpd
      rw [List.foldl_append]
      rfl
    rw [hfold, ih r]
    have hre : (rowFinal r l).entry_id = r.entry_id := rfl
    by_cases hP : isPromoteFor r.entry_id e = true
    · rw [applyUpd_promoteFor (by rw [hre]; exact hP)]
      obtain ⟨ht, _⟩ := isPromoteFor_spec hP
      unfold rowFinal
      rw [lastPromoteTs_append, lastRetractTs_append, lastTerminal_append]
      simp [hP, isPromoteFor_not_retract hP, isTerminalFor, ht]
    · by_cases hR : isRetractFor r.entry_id e = true
      · rw [applyUpd_retractFor (by rw [hre]; exact hR)]
        obtain ⟨ht, _⟩ := isRetractFor_spec hR
        unfold rowFinal
        rw [lastPromoteTs_append, lastRetractTs_append, lastTerminal_append]
        simp [hR, isRetractFor_not_promote hR, isTerminalFor, hP, ht]
      · have hT : isTerminalFor r.entry_id e = false := by
          unfold isTerminalFor
          simp [Bool.eq_false_iff.mpr hP, Bool.eq_false_iff.mpr hR]
        rw [applyUpd_noop_notFor (by rw [hre]; exact hT)]
        unfold rowFinal
        rw [lastPromoteTs_append, lastRetractTs_append, lastTerminal_append]
        simp [hP, hR, hT]

theorem rowFinal_idem (r : MemoryEntry) (l : List Event) :
    rowFinal (rowFinal r l) l = rowFinal r l := by
  cases r with
  | mk eid ws bucket key value status conf src pa ra ea ca ua =>
    unfold rowFinal
    cases hT : lastTerminal eid l <;>
      cases hP : lastPromoteTs eid l <;>
        cases hR : lastRetractTs eid l <;> simp [hT, hP, hR]

theorem rowUpd_idem (r : MemoryEntry) (l : List Event) :
    rowUpd (rowUpd r l) l = rowUpd r l := by
  rw [rowUpd_eq_rowFinal l r, rowUpd_eq_rowFinal l (rowFinal r l)]
  exact rowFinal_idem r l

theorem createdWith_rowUpd_eq_rowFinal :
    ∀ (l : List Event) (seen : List Nat),
      createdWith rowUpd l seen = createdWith rowFinal l seen := by
  intro l
  induction l with
  | nil => intro seen; rfl
  | cons e rest ih =>
    intro seen
    by_cases hc : e.type = EventType.memoryCandidate
    · cases hm : mkEntry? e with
      | none => simp [createdWith, hc, hm, ih]
      | some base =>
        by_cases hs : memNat base.source_event_id seen = true
        · simp [createdWith, hc, hm, hs, ih]
        · simp [createdWith, hc, hm, hs, ih, rowUpd_eq_rowFinal]
    · simp [createdWith, hc, ih]

theorem runDeliveries_memory : ∀ (ds : List (Event × Int)) (s : SysState),
    (ds.foldl (deliver true) s).memory
      = (ds.map Prod.fst).foldl applyMemEvent s.memory := by
  intro ds
  induction ds with
  | nil => intro s; rfl
  | cons d rest ih =>
    intro s
    rw [List.map_cons, List.foldl_cons, List.foldl_cons, ih, deliver_memory]

/-- C1 (amended): for every delivery sequence processed by the worker
(`EventStore.persist` then `ProjectionEngine.process` per delivery), the
resulting memory state is exactly `canonMemory`: one row per first-delivered
distinct effective `memory.candidate` (duplicate deliveries of an event_id
are absorbed by the `source_event_id` conflict key), whose mutable columns
are determined by the *last-delivered* `memory.promoted` and
`memory.retracted` envelopes applied to the entry after its creation — the
later-delivered of the two fixing `status` and `updated_at`.  Delivery
duplication and the event-log contents are invisible to the memory state;
the terminal events' `ts` values order nothing. -/
theorem c1_memory_state_last_applied (ds : List (Event × Int)) :
    (runDeliveries ds).memory = canonMemory (ds.map Prod.fst) := by
  unfold runDeliveries canonMemory
  rw [runDeliveries_memory, foldMem_eq]
  simp [initState, srcIds, createdWith_rowUpd_eq_rowFinal]

/-- C1 (counterexample): two delivery orders of the same three envelopes —
a candidate, a `memory.promoted` with `ts = 20` and a `memory.retracted`
with `ts = 10` — leave different memory states (`promoted` when the
promotion is delivered last, `retracted` when the retraction is), although
the set of distinct event_ids and the latest-by-ts terminal event (the
promotion) coincide.  The memory state is therefore not a function of those
two data, refuting the claim as stated. -/
theorem c1_memory_state_not_latest_by_ts :
    c1DeliveriesA.Perm c1DeliveriesB
    ∧ (runDeliveries c1DeliveriesA).memory
        ≠ (runDeliveries c1DeliveriesB).memory := by
  constructor
  · decide
  · decide

theorem pms_of_good {e : Event} (h : goodEvt e = true)
    (rows : List MemoryEntry) :
    processMemoryStep e rows = Except.ok (applyMemEvent rows e) := by
  by_cases hc : e.type = EventType.memoryCandidate
  · have hm : (mkEntry? e).isSome = true := by
      unfold goodEvt at h
      rwa [if_pos hc] at h
    obtain ⟨base, hb⟩ := Option.isSome_iff_exists.mp hm
    simp [processMemoryStep, applyMemEvent, hc, handleCandidate, hb]
  · by_cases hpr : e.type = EventType.memoryPromoted
        ∨ e.type = EventType.memoryRetracted
    · have hb : (!(e.payload.entryId == some PayloadId.badUuid)) = true := by
        unfold goodEvt at h
        rwa [if_neg hc, if_pos hpr] at h
      rcases hpr with hp | hr
      · cases hpe : e.payload.entryId with
        | none => simp [processMemoryStep, applyMemEvent, hp, handlePromoted, hpe]
        | some pid =>
          cases pid with
          | uuid id =>
            simp [processMemoryStep, applyMemEvent, hp, handlePromoted, hpe]
          | badUuid => rw [hpe] at hb; simp at hb
      · cases hpe : e.payload.entryId with
        | none =>
          simp [processMemoryStep, applyMemEvent, hr, handleRetracted, hpe]
        | some pid =>
          cases pid with
          | uuid id =>
            simp [processMemoryStep, applyMemEvent, hr, handleRetracted, hpe]
          | badUuid => rw [hpe] at hb; simp at hb
    · cases ht : e.type <;>
        first
          | exact absurd ht hc
          | exact absurd (Or.inl ht) hpr
          | exact absurd (Or.inr ht) hpr
          | simp [processMemoryStep, applyMemEvent, ht]

theorem pms_of_bad {e : Event} (h : goodEvt e = false)
    (rows : List MemoryEntry) :
    processMemoryStep e rows = Except.error () := by
  by_cases hc : e.type = EventType.memoryCandidate
  · have hm : (mkEntry? e).isSome = false := by
      unfold goodEvt at h
      rwa [if_pos hc] at h
    have hnone : mkEntry? e = none := by
      cases hmk : mkEntry? e with
      | none => rfl
      | some b => rw [hmk] at hm; simp at hm
    simp [processMemoryStep, hc, handleCandidate, hnone]
  · by_cases hpr : e.type = EventType.memoryPromoted
        ∨ e.type = EventType.memoryRetracted
    · have hb : (!(e.payload.entryId == some PayloadId.badUuid)) = false := by
        unfold goodEvt at h
        rwa [if_neg hc, if_pos hpr] at h
      have hbad : e.payload.entryId = some PayloadId.badUuid := by
        cases hpe : e.payload.entryId with
        | none => rw [hpe] at hb; simp at hb
        | some pid =>
          cases pid with
          | uuid id => rw [hpe] at hb; simp at hb
          | badUuid => rfl
      rcases hpr with hp | hr
      · simp [processMemoryStep, hp, handlePromoted, hbad]
      · simp [processMemoryStep, hr, handleRetracted, hbad]
    · exfalso
      unfold goodEvt at h
      rw [if_neg hc, if_neg hpr] at h
      exact Bool.true_eq_false.mp h

theorem replayGo_memory : ∀ (evs : List Event) (rows : List MemoryEntry),
    (replayGo rows evs).1 = (evs.takeWhile goodEvt).foldl applyMemEvent rows := by
  intro evs
  induction evs with
  | nil => intro rows; rfl
  | cons e rest ih =>
    intro rows
    cases hg : goodEvt e with
    | true =>
      unfold replayGo
      rw [pms_of_good hg rows]
      simp only [List.takeWhile_cons_of_pos hg, List.foldl_cons]
      exact ih (applyMemEvent rows e)
    | false =>
      unfold replayGo
      rw [pms_of_bad hg rows]
      have hneg : ¬ (goodEvt e = true) := by simp [hg]
      rw [List.takeWhile_cons_of_neg hneg]
      rfl

theorem mem_insertLe (le : α → α → Bool) (x : α) :
    ∀ (l : List α) (a : α), a ∈ insertLe le x l ↔ a = x ∨ a ∈ l := by
  intro l
  induction l with
  | nil => intro a; simp [insertLe]
  | cons b bs ih =>
    intro a
    unfold insertLe
    by_cases hle : le x b = true
    · simp [hle]
    · simp only [hle, Bool.false_eq_true, if_false, List.mem_cons, ih]
      tauto

theorem mem_insertionSortBy (le : α → α → Bool) :
    ∀ (l : List α) (a : α), a ∈ insertionSortBy le l ↔ a ∈ l := by
  intro l
  induction l with
  | nil => intro a; simp [insertionSortBy]
  | cons b bs ih =>
    intro a
    unfold insertionSortBy
    rw [mem_insertLe, ih]
    simp

theorem mkEntry?_workspace {e : Event} {base : MemoryEntry}
    (hm : mkEntry? e = some base) :
    base.workspace_id = pyStrip e.workspace_id := by
  unfold mkEntry? at hm
  cases hb : e.payload.bucket.getD (PayloadBucket.ok MemoryBucket.workspace) with
  | badBucket => rw [hb] at hm; simp at hm
  | ok bucket =>
    rw [hb] at hm
    simp only at hm
    split_ifs at hm with h1 h2 h3 h4 <;>
      first
        | rw [← hm]
        | (injection hm with hmm
           rw [← hmm])

theorem srcIds_map_rowUpd (n : List MemoryEntry) (P : List Event) :
    srcIds (n.map (fun r => rowUpd r P)) = srcIds n := by
  simp only [srcIds, List.map_map]
  exact List.map_congr_left (fun r _ => rowUpd_source_event_id P r)

theorem createdWith_workspace (ws : String) :
    ∀ (l : List Event) (seen : List Nat),
      (∀ e ∈ l, e.workspace_id = ws ∧ pyStrip e.workspace_id = e.workspace_id) →
      ∀ r ∈ createdWith rowUpd l seen, r.workspace_id = ws := by
  intro l
  induction l with
  | nil =>
    intro seen _ r hr
    simp [createdWith] at hr
  | cons e rest ih =>
    intro seen hl r hr
    have hrest : ∀ x ∈ rest,
        x.workspace_id = ws ∧ pyStrip x.workspace_id = x.workspace_id :=
      fun x hx => hl x (List.mem_cons_of_mem e hx)
    by_cases hc : e.type = EventType.memoryCandidate
    · cases hm : mkEntry? e with
      | none =>
        rw [show createdWith rowUpd (e :: rest) seen
            = createdWith rowUpd rest seen by simp [createdWith, hc, hm]] at hr
        exact ih seen hrest r hr
      | some base =>
        by_cases hs : memNat base.source_event_id seen = true
        · rw [show createdWith rowUpd (e :: rest) seen
              = createdWith rowUpd rest seen by
                simp [createdWith, hc, hm, hs]] at hr
          exact ih seen hrest r hr
        · rw [show createdWith rowUpd (e :: rest) seen
              = rowUpd base rest ::
                  createdWith rowUpd rest (base.source_event_id :: seen) by
                simp [createdWith, hc, hm, hs]] at hr
          rcases List.mem_cons.mp hr with hr | hr
          · have he := hl e (List.mem_cons_self e rest)
            rw [hr, rowUpd_workspace_id, mkEntry?_workspace hm, he.2, he.1]
          · exact ih (base.source_event_id :: seen) hrest r hr
    · rw [show createdWith rowUpd (e :: rest) seen
          = createdWith rowUpd rest seen by simp [createdWith, hc]] at hr
      exact ih seen hrest r hr

/-- C3: `replay(workspace)` deletes the workspace's entries and re-applies
the workspace's logged events in ascending `ts` through the projection
handlers, touching neither the event log, the cursor, the producer outbox
(no auto-promotion sweep) nor anything else of the state; and on an
unchanged event log it is idempotent: running it twice leaves the state —
in particular the memory — identical to running it once.  The hypothesis
records that logged envelopes carry stripped workspace ids, which
envelope validation guarantees for every persisted event. -/
theorem c3_replay_rebuild_idempotent (s : SysState) (ws : String)
    (h : TrimmedLog s) :
    (replay s ws).1.events = s.events
    ∧ (replay s ws).1.cursor = s.cursor
    ∧ (replay s ws).1.outbox = s.outbox
    ∧ (replay (replay s ws).1 ws).1 = (replay s ws).1 := by
  obtain ⟨events, memory, cursor, outbox, fresh⟩ := s
  refine ⟨rfl, rfl, rfl, ?_⟩
  have hTL : ∀ e ∈ events, pyStrip e.workspace_id = e.workspace_id := h
  have hPev : ∀ e ∈ (getWorkspaceEvents events ws).takeWhile goodEvt,
      e.workspace_id = ws ∧ pyStrip e.workspace_id = e.workspace_id := by
    intro e heP
    have hin : e ∈ getWorkspaceEvents events ws :=
      (List.takeWhile_sublist goodEvt).subset heP
    unfold getWorkspaceEvents at hin
    rw [mem_insertionSortBy] at hin
    have h1 := List.mem_filter.mp hin
    exact ⟨by simpa using h1.2, hTL e h1.1⟩
  have hrep : ∀ m : List MemoryEntry,
      (replay ⟨events, m, cursor, outbox, fresh⟩ ws).1
        = ⟨events,
            (replayGo (m.filter (fun r => !(r.workspace_id == ws)))
              (getWorkspaceEvents events ws)).1, cursor, outbox, fresh⟩ :=
    fun _ => rfl
  rw [hrep memory, hrep _]
  simp only [SysState.mk.injEq]
  refine ⟨trivial, ?_, trivial, trivial, trivial⟩
  rw [replayGo_memory, replayGo_memory, foldMem_eq, foldMem_eq]
  have hfil :
      (((memory.filter (fun r => !(r.workspace_id == ws))).map
          (fun r => rowUpd r
            ((getWorkspaceEvents events ws).takeWhile goodEvt))
        ++ createdWith rowUpd
            ((getWorkspaceEvents events ws).takeWhile goodEvt)
            (srcIds (memory.filter
              (fun r => !(r.workspace_id == ws))))).filter
        (fun r => !(r.workspace_id == ws)))
      = (memory.filter (fun r => !(r.workspace_id == ws))).map
          (fun r => rowUpd r
            ((getWorkspaceEvents events ws).takeWhile goodEvt)) := by
    rw [List.filter_append]
    have hA :
        ((memory.filter (fun r => !(r.workspace_id == ws))).map
            (fun r => rowUpd r
              ((getWorkspaceEvents events ws).takeWhile goodEvt))).filter
          (fun r => !(r.workspace_id == ws))
        = (memory.filter (fun r => !(r.workspace_id == ws))).map
            (fun r => rowUpd r
              ((getWorkspaceEvents events ws).takeWhile goodEvt)) := by
      apply List.filter_eq_self.mpr
      intro r hr
      obtain ⟨r0, hr0, hrr⟩ := List.mem_map.mp hr
      rw [← hrr, rowUpd_workspace_id]
      exact (List.mem_filter.mp hr0).2
    have hB :
        (createdWith rowUpd
            ((getWorkspaceEvents events ws).takeWhile goodEvt)
            (srcIds (memory.filter
              (fun r => !(r.workspace_id == ws))))).filter
          (fun r => !(r.workspace_id == ws)) = [] := by
      apply List.filter_eq_nil_iff.mpr
      intro r hr
      have hws : r.workspace_id = ws :=
        createdWith_workspace ws
          ((getWorkspaceEvents events ws).takeWhile goodEvt) _ hPev r hr
      simp [hws]
    rw [hA, hB, List.append_nil]
  rw [hfil, srcIds_map_rowUpd, List.map_map]
  congr 1
  exact List.map_congr_left (fun r _ => rowUpd_idem r _)

/-- C3 witness: replay idempotence evaluated on a concrete state (a two-event
log for workspace `w` and a foreign-workspace row). -/
theorem c3_replay_rebuild_idempotent_witness :
    TrimmedLog c3State
    ∧ (replay (replay c3State "w").1 "w").1 = (replay c3State "w").1 := by
  have hTL : TrimmedLog c3State := by
    intro e he
    have h2 : e = c3Candidate ∨ e = c3Promote := by simpa [c3State] using he
    rcases h2 with rfl | rfl <;> decide
  exact ⟨hTL, (c3_replay_rebuild_idempotent c3State "w" hTL).2.2.2⟩

/-- C8: for every valid envelope, decoding the wire bytes produced by
encoding round-trips to an equal envelope — serialisation writes `ts` in
ISO-8601 with an explicit UTC offset, deserialisation re-validates, and the
timestamp normalisation interprets naive timestamps as UTC and converts
offset-aware ones to UTC. -/
theorem c8_wire_round_trip (e : Event) (h : ValidEnvelope e) :
    fromKafkaValue (toKafkaValue e) = some e
    ∧ (∀ t : Int, normalizeTs (WireTs.naive t) = t)
    ∧ (∀ t off : Int, normalizeTs (WireTs.aware t off) = t - off) := by
  obtain ⟨h1, h2, h3, h4, h5, h6, h7⟩ := h
  refine ⟨?_, fun t => rfl, fun t off => rfl⟩
  unfold fromKafkaValue toKafkaValue
  have hws : (e.workspace_id == "") = false := beq_eq_false_iff_ne.mpr h3
  have hsat : (e.satellite_id == "") = false := beq_eq_false_iff_ne.mpr h5
  have hsv : (e.schema_version == 1) = true := by simp [h1]
  simp [hsv, h2, h4, hws, hsat, h6, h7, normalizeTs]

/-- C8 witness: the round trip evaluated on a concrete envelope. -/
theorem c8_wire_round_trip_witness :
    ValidEnvelope c8Envelope
    ∧ fromKafkaValue (toKafkaValue c8Envelope) = some c8Envelope := by
  have hv : ValidEnvelope c8Envelope :=
    ⟨rfl, by decide, by decide, by decide, by decide, by decide, by decide⟩
  exact ⟨hv, (c8_wire_round_trip c8Envelope hv).1⟩

theorem dedup_filter {α : Type} [DecidableEq α] (p : α → Bool) :
    ∀ l : List α, (l.filter p).dedup = l.dedup.filter p := by
  intro l
  induction l with
  | nil => simp
  | cons a l ih =>
    by_cases hpa : p a = true
    · rw [List.filter_cons_of_pos hpa]
      by_cases hmem : a ∈ l
      · rw [List.dedup_cons_of_mem hmem,
          List.dedup_cons_of_mem (List.mem_filter.mpr ⟨hmem, hpa⟩), ih]
      · have hmem2 : a ∉ l.filter p := fun hf => hmem (List.mem_filter.mp hf).1
        rw [List.dedup_cons_of_not_mem hmem2, List.dedup_cons_of_not_mem hmem,
          List.filter_cons_of_pos hpa, ih]
    · rw [List.filter_cons_of_neg (by simp [hpa])]
      by_cases hmem : a ∈ l
      · rw [List.dedup_cons_of_mem hmem, ih]
      · rw [List.dedup_cons_of_not_mem hmem,
          List.filter_cons_of_neg (by simp [hpa]), ih]

theorem any_dedup {α : Type} [DecidableEq α] (p : α → Bool) (l : List α) :
    l.dedup.any p = l.any p := by
  cases hl : l.any p with
  | true =>
    obtain ⟨a, ha, hpa⟩ := List.any_eq_true.mp hl
    exact List.any_eq_true.mpr ⟨a, List.mem_dedup.mpr ha, hpa⟩
  | false =>
    rw [List.any_eq_false] at hl ⊢
    exact fun a ha => hl a (List.mem_dedup.mp ha)

theorem filter_isEmpty_eq_not_any {α : Type} (p : α → Bool) (l : List α) :
    (l.filter p).isEmpty = !(l.any p) := by
  induction l with
  | nil => rfl
  | cons a l ih =>
    by_cases hpa : p a = true
    · simp [List.filter_cons, hpa]
    · simp [List.filter_cons, hpa, ih]

theorem rank_core (terms : List String) (hay : MemoryEntry → String) :
    ∀ es : List MemoryEntry,
      es.filterMap (fun entry =>
        if (terms.filter (fun t => containsSub (hay entry) t)).isEmpty = true
        then none
        else some
          (mkRat
              ((terms.filter (fun t => containsSub (hay entry) t)).dedup.length
                : Int)
              terms.dedup.length,
            sortedStrings
              (terms.filter (fun t => containsSub (hay entry) t)).dedup,
            entry))
      = (es.filter
            (fun e => terms.dedup.any (fun t => containsSub (hay e) t))).map
          (fun e =>
            (mkRat
                ((terms.dedup.filter
                    (fun t => containsSub (hay e) t)).length : Int)
                terms.dedup.length,
              sortedStrings
                (terms.dedup.filter (fun t => containsSub (hay e) t)),
              e)) := by
  intro es
  induction es with
  | nil => rfl
  | cons a es ih =>
    rw [List.filterMap_cons, List.filter_cons]
    have hany : (terms.dedup.any (fun t => containsSub (hay a) t))
        = terms.any (fun t => containsSub (hay a) t) := any_dedup _ _
    have hne := filter_isEmpty_eq_not_any
      (fun t => containsSub (hay a) t) terms
    cases hm : (terms.filter (fun t => containsSub (hay a) t)).isEmpty with
    | true =>
      have hfalse : terms.any (fun t => containsSub (hay a) t) = false := by
        rw [hm] at hne
        cases hx : terms.any (fun t => containsSub (hay a) t)
        · rfl
        · rw [hx] at hne; simp at hne
      rw [hany, hfalse]
      simp only [hm, if_true, Bool.false_eq_true, if_false]
      exact ih
    | false =>
      have htrue : terms.any (fun t => containsSub (hay a) t) = true := by
        rw [hm] at hne
        cases hx : terms.any (fun t => containsSub (hay a) t)
        · rw [hx] at hne; simp at hne
        · rfl
      rw [hany, htrue]
      simp only [hm, Bool.false_eq_true, if_false, if_true, List.map_cons]
      rw [ih, dedup_filter]

/-- C7 (amended): for every entry list, non-blank query and limit,
`_rank_memory` computes exactly the claim's pipeline — term set `T` from the
lowercased whitespace-split query, inclusion iff some term occurs in the
haystack, score `|matched ∩ T| / |T|` rounded to 4 decimals, sorted unique
`match_terms`, stable sort by score with ties broken by the most recent tie
timestamp, truncation to the limit — with the haystack
`lower(key) + " " + lower(canonical_json(value))`: the code lowercases the
canonical value serialisation as well as the key. -/
theorem c7_rank_memory_amended (entries : List MemoryEntry) (q : String)
    (limit : Nat) (hq1 : pyStrip q ≠ "") (hq2 : tokenizeQuery q ≠ []) :
    rankMemory entries (some q) limit
      = rankMemoryClaim rankHaystack entries q limit := by
  simp only [rankMemory, rankMemoryClaim, Option.getD_some]
  have hblank : (pyStrip q == "") = false := beq_eq_false_iff_ne.mpr hq1
  have hterms : (tokenizeQuery q).isEmpty = false := by
    cases ht : tokenizeQuery q with
    | nil => exact absurd ht hq2
    | cons a l => rfl
  have hT : ((tokenizeQuery q).dedup).isEmpty = false := by
    cases ht : (tokenizeQuery q).dedup with
    | nil => exact absurd ((List.dedup_eq_nil _).mp ht) hq2
    | cons a l => rfl
  simp only [hblank, hterms, hT, Bool.false_eq_true, if_false]
  by_cases hent : entries.isEmpty
  · rw [List.isEmpty_iff.mp hent]
    simp [insertionSortBy]
  · simp only [hent, Bool.false_eq_true, if_false]
    rw [rank_core (tokenizeQuery q) rankHaystack entries]

/-- C7 (counterexample): with the haystack exactly as the claim states it —
`lower(key) + " " + canonical_json(value)`, the value part not lowercased —
the entry whose value contains `"Hello"` is not matched by the query
`hello`, but the code includes it: the claim's description of the memory
section is false at this input. -/
theorem c7_rank_memory_haystack_counterexample :
    rankMemory [c7Entry] (some "hello") 12
      ≠ rankMemoryClaim claimHaystack [c7Entry] "hello" 12
    ∧ (rankMemory [c7Entry] (some "hello") 12).length = 1
    ∧ rankMemoryClaim claimHaystack [c7Entry] "hello" 12 = [] := by
  refine ⟨by decide, by decide, by decide⟩

/-- C7 witness: the amended characterisation evaluated at a concrete entry
list and query. -/
theorem c7_rank_memory_amended_witness :
    pyStrip "hello" ≠ ""
    ∧ tokenizeQuery "hello" ≠ []
    ∧ rankMemory [c7Entry] (some "hello") 12
        = rankMemoryClaim rankHaystack [c7Entry] "hello" 12 :=
  ⟨by decide, by decide,
   c7_rank_memory_amended [c7Entry] "hello" 12 (by decide) (by decide)⟩
